import Mathlib

/-!
Verification of the `cbs.h` single-header C build-script library.

Every definition below is a shallow embedding of a function from `src/cbs.h`,
translated statement by statement from the C source.  `size_t` arithmetic that
can wrap is modelled on `Nat` with explicit reduction modulo `2 ^ 64`
(LP64 platform: `sizeof(size_t) == 8`); the C `int` return value of `fmdcmp`
is modelled on `Int` with explicit two's-complement wrapping into 32 bits.
-/

namespace Cbs

/-! ### `_next_powerof2` (cbs.h lines 329-339)

The C source, for reference:

    static size_t
    _next_powerof2(size_t n)
    {
        if (n && !(n & (n - 1)))
            return n;
        n--;
        for (size_t i = 1; i < sizeof(size_t); i <<= 1)
            n |= n >> i;
        return n + 1;
    }

On LP64, `sizeof(size_t)` is `8`, so the loop body runs for `i = 1, 2, 4`
only.  `n--` at `n == 0` wraps to `2 ^ 64 - 1`, and the final `n + 1` is
likewise reduced modulo `2 ^ 64`. -/

/-- One iteration `n |= n >> i` of the bit-smearing loop in `_next_powerof2`. -/
def smearStep (i m : Nat) : Nat := m ||| m >>> i

/-- Faithful model of `_next_powerof2` from cbs.h.  The decrement and the
final increment are `size_t` operations, hence the explicit `% 2 ^ 64`.
The three `smearStep` applications are the loop iterations `i = 1, 2, 4`. -/
def _next_powerof2 (n : Nat) : Nat :=
  if n ≠ 0 ∧ n.land (n - 1) = 0 then n
  else
    (smearStep 4 (smearStep 2 (smearStep 1 ((n + (2 ^ 64 - 1)) % 2 ^ 64))) + 1) % 2 ^ 64

/-- Spec-side notion: `r` is a power of two. -/
def isPow2 (r : Nat) : Prop := ∃ k, r = 2 ^ k

/-- Spec-side notion used by claim C8: `r` is the smallest power of two that
is greater than or equal to `n`. -/
def isLeastPow2Geq (n r : Nat) : Prop :=
  isPow2 r ∧ n ≤ r ∧ ∀ m, isPow2 m → n ≤ m → r ≤ m

/-! ### The `cmd_t` command structure (cbs.h lines 131-134, 341-359)

    typedef struct {
        char **_argv;
        size_t _len, _cap;
    } cmd_t;

The backing array `_argv` is modelled as a list of slots; a slot holds a
string pointer, the NULL terminator sentinel, or uninitialized memory
freshly obtained from `realloc`. -/

/-- One slot of the `_argv` backing array of a `cmd_t`. -/
inductive Slot where
  | str (s : String)
  | null
  | uninit
deriving DecidableEq, Repr

/-- Model of `cmd_t`.  `_argv` lists the allocated slots, so the allocation
size is `_argv.length` (maintained equal to `_cap`). -/
structure cmd_t where
  _argv : List Slot
  _len : Nat
  _cap : Nat
deriving DecidableEq, Repr

/-- A zero-initialized `cmd_t`, as the source prescribes
("You should always zero-initialize variables of this type before use"). -/
def cmdZero : cmd_t := ⟨[], 0, 0⟩

/-- Model of `realloc(p, cap * sizeof(char *))` inside `bufalloc`: the old
contents are preserved and any newly acquired slots are uninitialized. -/
def reallocSlots (old : List Slot) (cap : Nat) : List Slot :=
  old.take cap ++ List.replicate (cap - old.length) Slot.uninit

/-- Model of the `memcpy(cmd->_argv + cmd->_len, xs, n * sizeof(*xs))` call
in `cmdaddv`: write the strings `xs` into consecutive slots starting at
index `i`. -/
def writeStrs (l : List Slot) (i : Nat) (xs : List String) : List Slot :=
  match xs with
  | [] => l
  | x :: rest => writeStrs (l.set i (Slot.str x)) (i + 1) rest

/-- The conditional growth step of `cmdaddv` (cbs.h lines 344-347):

    if (cmd->_len + n >= cmd->_cap) {
        cmd->_cap = _next_powerof2(cmd->_len + n) + 2;
        cmd->_argv = bufalloc(cmd->_argv, cmd->_cap, sizeof(char *));
    }

It leaves `_len` untouched. -/
def cmdGrow (cmd : cmd_t) (n : Nat) : cmd_t :=
  if cmd._len + n ≥ cmd._cap then
    { cmd with
      _cap := _next_powerof2 (cmd._len + n) + 2
      _argv := reallocSlots cmd._argv (_next_powerof2 (cmd._len + n) + 2) }
  else cmd

/-- Faithful model of `cmdaddv` (cbs.h lines 341-352): grow if needed, then

    memcpy(cmd->_argv + cmd->_len, xs, n * sizeof(*xs));
    cmd->_len += n;
    cmd->_argv[cmd->_len] = NULL; -/
def cmdaddv (cmd : cmd_t) (xs : List String) : cmd_t :=
  { _argv := (writeStrs (cmdGrow cmd xs.length)._argv cmd._len xs).set
      (cmd._len + xs.length) Slot.null
    _len := cmd._len + xs.length
    _cap := (cmdGrow cmd xs.length)._cap }

/-- Model of `cmdclr` (cbs.h lines 354-359):

    c->_len = 0;
    *c->_argv = NULL;

The source documents that `cmdclr` is for reusing a command that has
already been used (so `_argv` is non-NULL there). -/
def cmdclr (c : cmd_t) : cmd_t :=
  { c with _len := 0, _argv := c._argv.set 0 Slot.null }

/-- A sequence of `cmdaddv` calls starting from a zero-initialized command;
each element of `batches` is the string list of one append operation. -/
def cmdAdds (batches : List (List String)) : cmd_t :=
  batches.foldl cmdaddv cmdZero

/-- The NULL-termination invariant of claim C4: the allocation size matches
`_cap`, there is a slot one past `_len`, and that slot holds the NULL
terminator sentinel. -/
def TermInv (c : cmd_t) : Prop :=
  c._argv.length = c._cap ∧ c._len < c._cap ∧ c._argv.get? c._len = some Slot.null

instance (c : cmd_t) : Decidable (TermInv c) := by
  unfold TermInv; infer_instance

/-! ### Arithmetic facts about `_next_powerof2` -/

lemma le_lor_self (a b : Nat) : a ≤ a ||| b :=
  Nat.le_of_testBit fun i h => by simp [Nat.testBit_lor, h]

lemma le_smearStep (i m : Nat) : m ≤ smearStep i m :=
  le_lor_self m (m >>> i)

lemma smearStep_lt {c i m : Nat} (h : m < 2 ^ c) : smearStep i m < 2 ^ c :=
  Nat.or_lt_two_pow h
    (lt_of_le_of_lt (by rw [Nat.shiftRight_eq_div_pow]; exact Nat.div_le_self m (2 ^ i)) h)

/-- The growth result always covers the request: for arguments in the range a
real process can produce, `_next_powerof2 x` is at least `x` (even though,
as `next_powerof2_not_least` shows, it is not always a power of two). -/
lemma npow2_ge {x : Nat} (hx : x ≤ 2 ^ 63) : x ≤ _next_powerof2 x := by
  by_cases h : x ≠ 0 ∧ x.land (x - 1) = 0
  · rw [_next_powerof2, if_pos h]
  · rw [_next_powerof2, if_neg h]
    rcases Nat.eq_zero_or_pos x with rfl | hpos
    · exact Nat.zero_le _
    · have h0 : (x + (2 ^ 64 - 1)) % 2 ^ 64 = x - 1 := by
        have hx1 : x + (2 ^ 64 - 1) = (x - 1) + 2 ^ 64 := by omega
        rw [hx1, Nat.add_mod_right, Nat.mod_eq_of_lt (by omega)]
      rw [h0]
      have hm1 : x - 1 < 2 ^ 63 := by omega
      have hge : x - 1 ≤ smearStep 4 (smearStep 2 (smearStep 1 (x - 1))) :=
        le_trans (le_smearStep 1 _) (le_trans (le_smearStep 2 _) (le_smearStep 4 _))
      have hlt : smearStep 4 (smearStep 2 (smearStep 1 (x - 1))) < 2 ^ 63 :=
        smearStep_lt (smearStep_lt (smearStep_lt hm1))
      rw [Nat.mod_eq_of_lt (by omega)]
      omega

/-! ### List-level lemmas about the backing array operations -/

lemma writeStrs_length (xs : List String) (l : List Slot) (i : Nat) :
    (writeStrs l i xs).length = l.length := by
  induction xs generalizing l i with
  | nil => rfl
  | cons x rest ih => rw [writeStrs, ih, List.length_set]

lemma writeStrs_get?_lt (xs : List String) (l : List Slot) {i j : Nat} (hj : j < i) :
    (writeStrs l i xs).get? j = l.get? j := by
  induction xs generalizing l i with
  | nil => rfl
  | cons x rest ih =>
    rw [writeStrs, ih (l.set i (Slot.str x)) (show j < i + 1 by omega)]
    exact List.get?_set_ne _ _ (by omega)

lemma writeStrs_get?_str (xs : List String) (l : List Slot) (i j : Nat) (x : String)
    (hj : xs.get? j = some x) (hb : i + xs.length ≤ l.length) :
    (writeStrs l i xs).get? (i + j) = some (Slot.str x) := by
  induction xs generalizing l i j with
  | nil => simp at hj
  | cons y rest ih =>
    cases j with
    | zero =>
      have hy : y = x := by simpa using hj
      subst hy
      rw [writeStrs, writeStrs_get?_lt rest _ (by omega)]
      exact List.get?_set_eq_of_lt _ (by simp at hb ⊢; omega)
    | succ j =>
      have := ih (l.set i (Slot.str y)) (i + 1) j (by simpa using hj)
        (by rw [List.length_set]; simp at hb ⊢; omega)
      rw [writeStrs, show i + (j + 1) = (i + 1) + j by omega]
      exact this

lemma reallocSlots_length {old : List Slot} {cap : Nat} (h : old.length ≤ cap) :
    (reallocSlots old cap).length = cap := by
  rw [reallocSlots, List.length_append, List.length_take, List.length_replicate]
  omega

/-! ### The `cmdaddv` invariant -/

lemma cmdGrow_spec (c : cmd_t) (n : Nat)
    (hlc : c._argv.length = c._cap) (hb : c._len + n ≤ 2 ^ 63) :
    (cmdGrow c n)._argv.length = (cmdGrow c n)._cap
    ∧ c._len + n < (cmdGrow c n)._cap
    ∧ (cmdGrow c n)._len = c._len := by
  by_cases hif : c._len + n ≥ c._cap
  · have hge := npow2_ge hb
    rw [cmdGrow, if_pos hif]
    refine ⟨?_, ?_, rfl⟩
    · show (reallocSlots c._argv (_next_powerof2 (c._len + n) + 2)).length
          = _next_powerof2 (c._len + n) + 2
      exact reallocSlots_length (by omega)
    · show c._len + n < _next_powerof2 (c._len + n) + 2
      omega
  · rw [cmdGrow, if_neg hif]
    exact ⟨hlc, by omega, rfl⟩

lemma cmdaddv_spec (c : cmd_t) (xs : List String)
    (hlc : c._argv.length = c._cap) (hb : c._len + xs.length ≤ 2 ^ 63) :
    TermInv (cmdaddv c xs) ∧ (cmdaddv c xs)._len = c._len + xs.length
    ∧ c._len = (cmdGrow c xs.length)._len := by
  obtain ⟨h1, h2, h3⟩ := cmdGrow_spec c xs.length hlc hb
  refine ⟨⟨?_, ?_, ?_⟩, rfl, h3.symm⟩
  · show ((writeStrs (cmdGrow c xs.length)._argv c._len xs).set
        (c._len + xs.length) Slot.null).length = (cmdGrow c xs.length)._cap
    rw [List.length_set, writeStrs_length, h1]
  · show c._len + xs.length < (cmdGrow c xs.length)._cap
    omega
  · show ((writeStrs (cmdGrow c xs.length)._argv c._len xs).set
        (c._len + xs.length) Slot.null).get? (c._len + xs.length) = some Slot.null
    exact List.get?_set_eq_of_lt _ (by rw [writeStrs_length, h1]; omega)

/-- Content written by `cmdaddv`: the appended strings land at consecutive
indices starting at the old `_len`. -/
lemma cmdaddv_content (c : cmd_t) (xs : List String)
    (hlc : c._argv.length = c._cap) (hb : c._len + xs.length ≤ 2 ^ 63) :
    ∀ j x, xs.get? j = some x →
      (cmdaddv c xs)._argv.get? (c._len + j) = some (Slot.str x) := by
  intro j x hj
  obtain ⟨h1, h2, _⟩ := cmdGrow_spec c xs.length hlc hb
  obtain ⟨hjlt, -⟩ := List.get?_eq_some.mp hj
  show ((writeStrs (cmdGrow c xs.length)._argv c._len xs).set
      (c._len + xs.length) Slot.null).get? (c._len + j) = some (Slot.str x)
  rw [List.get?_set_ne _ _ (by omega)]
  exact writeStrs_get?_str xs _ c._len j x hj (by omega)

lemma cmdAdds_go (batches : List (List String)) (c : cmd_t)
    (hlc : c._argv.length = c._cap)
    (hb : c._len + (batches.map List.length).sum ≤ 2 ^ 63) :
    (batches.foldl cmdaddv c)._len = c._len + (batches.map List.length).sum
    ∧ (batches.foldl cmdaddv c)._argv.length = (batches.foldl cmdaddv c)._cap
    ∧ (batches ≠ [] → TermInv (batches.foldl cmdaddv c)) := by
  induction batches generalizing c with
  | nil => simpa using hlc
  | cons b bs ih =>
    simp only [List.map_cons, List.sum_cons] at hb
    obtain ⟨⟨i1, i2, i3⟩, hlen, _⟩ := cmdaddv_spec c b hlc (by omega)
    have hrec := ih (cmdaddv c b) i1 (by omega)
    refine ⟨?_, hrec.2.1, fun _ => ?_⟩
    · rw [List.foldl_cons, hrec.1, hlen, List.map_cons, List.sum_cons]; omega
    · cases bs with
      | nil => exact ⟨i1, i2, i3⟩
      | cons b2 bs2 => exact hrec.2.2 (by simp)

/-- C4: for every Command value, after any (nonempty) sequence of append
operations contributing `K` strings in total — `K` bounded by what a real
address space can hold — the length field equals `K`, the capacity is at
least `K + 1`, and the argument-vector slot at index `K` holds the NULL
terminator sentinel.  Instantiating `batches` at any prefix shows the
invariant holds after every individual append. -/
theorem cmdaddv_termination_invariant (batches : List (List String))
    (hne : batches ≠ [])
    (hb : (batches.map List.length).sum ≤ 2 ^ 63) :
    (cmdAdds batches)._len = (batches.map List.length).sum
    ∧ (batches.map List.length).sum + 1 ≤ (cmdAdds batches)._cap
    ∧ (cmdAdds batches)._argv.get? ((batches.map List.length).sum)
        = some Slot.null := by
  obtain ⟨hlen, -, hinv⟩ :=
    cmdAdds_go batches cmdZero rfl (show 0 + _ ≤ 2 ^ 63 by omega)
  obtain ⟨-, hlt, hnull⟩ := hinv hne
  rw [show batches.foldl cmdaddv cmdZero = cmdAdds batches from rfl] at hlen hlt hnull
  have hl : (cmdAdds batches)._len = (batches.map List.length).sum :=
    hlen.trans (Nat.zero_add _)
  exact ⟨hl, by rw [← hl]; exact hlt, hl ▸ hnull⟩

/-- Witness for C4 at a concrete two-append sequence contributing four
strings. -/
theorem cmdaddv_termination_invariant_witness :
    (([["cc"], ["-o", "x", "y"]] : List (List String)) ≠ [])
    ∧ ((([["cc"], ["-o", "x", "y"]] : List (List String)).map List.length).sum ≤ 2 ^ 63)
    ∧ ((cmdAdds [["cc"], ["-o", "x", "y"]])._len
        = (([["cc"], ["-o", "x", "y"]] : List (List String)).map List.length).sum
      ∧ (([["cc"], ["-o", "x", "y"]] : List (List String)).map List.length).sum + 1
          ≤ (cmdAdds [["cc"], ["-o", "x", "y"]])._cap
      ∧ (cmdAdds [["cc"], ["-o", "x", "y"]])._argv.get?
          ((([["cc"], ["-o", "x", "y"]] : List (List String)).map List.length).sum)
          = some Slot.null) :=
  ⟨by decide, by decide,
    cmdaddv_termination_invariant [["cc"], ["-o", "x", "y"]] (by decide) (by decide)⟩

set_option maxRecDepth 4096 in
/-- C8 (code bug): `_next_powerof2 257` evaluates to `511`, which is not a
power of two at all — the intended least power of two at or above `257` is
`512`.  The capacity chosen by `cmdaddv` for a required length of 257 is
therefore `513` rather than `512 + 2`.  The cause in the source is the loop
bound `i < sizeof(size_t)`, which runs the smearing shifts for
`i = 1, 2, 4` only instead of up to the bit width, so bits more than eight
positions below the leading bit are never filled in. -/
theorem next_powerof2_not_least_pow2 :
    _next_powerof2 257 = 511
    ∧ ¬ isPow2 (_next_powerof2 257)
    ∧ ¬ isLeastPow2Geq 257 (_next_powerof2 257)
    ∧ isLeastPow2Geq 257 512
    ∧ (cmdaddv cmdZero (List.replicate 257 "x"))._cap = 513 := by
  have h511 : _next_powerof2 257 = 511 := by decide
  have hnp : ¬ isPow2 511 := by
    rintro ⟨k, hk⟩
    have hk9 : k ≤ 9 := by
      by_contra hgt
      have hpow : (2 : Nat) ^ 10 ≤ 2 ^ k := Nat.pow_le_pow_right (by norm_num) (by omega)
      rw [← hk] at hpow
      norm_num at hpow
    interval_cases k <;> norm_num at hk
  refine ⟨h511, by rw [h511]; exact hnp, ?_, ?_, by decide⟩
  · rintro ⟨hp, -, -⟩
    rw [h511] at hp
    exact hnp hp
  · refine ⟨⟨9, by norm_num⟩, by norm_num, ?_⟩
    rintro m ⟨k, rfl⟩ hm
    have h9 : 9 ≤ k := by
      by_contra hlt
      have h8 : (2 : Nat) ^ k ≤ 2 ^ 8 := Nat.pow_le_pow_right (by norm_num) (by omega)
      norm_num at h8
      omega
    calc (512 : Nat) = 2 ^ 9 := by norm_num
      _ ≤ 2 ^ k := Nat.pow_le_pow_right (by norm_num) h9

/-- C9: clearing a command that has had at least one string appended resets
the length to zero, writes the NULL terminator sentinel at index zero, and
leaves the capacity and the backing allocation untouched (same allocation
size, every slot other than index zero unchanged, nothing released); a
subsequent append places its strings starting at index 0, with the NULL
terminator right after them — no stale content. -/
theorem cmdclr_resets_and_reuses (batches : List (List String)) (xs : List String)
    (hne : batches ≠ [])
    (h1 : 1 ≤ (batches.map List.length).sum)
    (hb : (batches.map List.length).sum ≤ 2 ^ 63)
    (hxs : xs.length ≤ 2 ^ 63) :
    (cmdclr (cmdAdds batches))._len = 0
    ∧ (cmdclr (cmdAdds batches))._cap = (cmdAdds batches)._cap
    ∧ (cmdclr (cmdAdds batches))._argv.length = (cmdAdds batches)._argv.length
    ∧ (cmdclr (cmdAdds batches))._argv.get? 0 = some Slot.null
    ∧ (∀ i, 1 ≤ i →
        (cmdclr (cmdAdds batches))._argv.get? i = (cmdAdds batches)._argv.get? i)
    ∧ (cmdaddv (cmdclr (cmdAdds batches)) xs)._len = xs.length
    ∧ (∀ j x, xs.get? j = some x →
        (cmdaddv (cmdclr (cmdAdds batches)) xs)._argv.get? j = some (Slot.str x))
    ∧ (cmdaddv (cmdclr (cmdAdds batches)) xs)._argv.get? xs.length
        = some Slot.null := by
  obtain ⟨hlen, -, hinv⟩ :=
    cmdAdds_go batches cmdZero rfl (show 0 + _ ≤ 2 ^ 63 by omega)
  obtain ⟨hleq, hlt, -⟩ := hinv hne
  rw [show batches.foldl cmdaddv cmdZero = cmdAdds batches from rfl] at hlen hleq hlt
  have hlc : (cmdclr (cmdAdds batches))._argv.length = (cmdclr (cmdAdds batches))._cap := by
    show ((cmdAdds batches)._argv.set 0 Slot.null).length = (cmdAdds batches)._cap
    rw [List.length_set]
    exact hleq
  have hlen0 : (cmdclr (cmdAdds batches))._len = 0 := rfl
  have hpos : 0 < (cmdAdds batches)._argv.length := by omega
  obtain ⟨⟨-, -, hnull⟩, haddlen, -⟩ :=
    cmdaddv_spec (cmdclr (cmdAdds batches)) xs hlc (by rw [hlen0]; omega)
  have hcontent := cmdaddv_content (cmdclr (cmdAdds batches)) xs hlc (by rw [hlen0]; omega)
  refine ⟨rfl, rfl, List.length_set _ _ _, ?_, ?_, ?_, ?_, ?_⟩
  · exact List.get?_set_eq_of_lt _ hpos
  · intro i hi
    exact List.get?_set_ne _ _ (by omega)
  · rw [haddlen, hlen0, Nat.zero_add]
  · intro j x hj
    have := hcontent j x hj
    rwa [hlen0, Nat.zero_add] at this
  · have := hnull
    rwa [haddlen, hlen0, Nat.zero_add] at this

/-- Witness for C9: one append of one string, cleared, then an append of two
strings. -/
theorem cmdclr_resets_and_reuses_witness :
    ((cmdclr (cmdAdds [["a"]]))._len = 0
      ∧ (cmdclr (cmdAdds [["a"]]))._cap = (cmdAdds [["a"]])._cap
      ∧ (cmdclr (cmdAdds [["a"]]))._argv.get? 0 = some Slot.null
      ∧ (cmdaddv (cmdclr (cmdAdds [["a"]])) ["b", "c"])._len = 2
      ∧ (cmdaddv (cmdclr (cmdAdds [["a"]])) ["b", "c"])._argv.get? 0
          = some (Slot.str "b")
      ∧ (cmdaddv (cmdclr (cmdAdds [["a"]])) ["b", "c"])._argv.get? 2
          = some Slot.null) :=
  have h := cmdclr_resets_and_reuses [["a"]] ["b", "c"]
    (by decide) (by decide) (by decide) (by decide)
  ⟨h.1, h.2.1, h.2.2.2.1, h.2.2.2.2.2.1,
    h.2.2.2.2.2.2.1 0 "b" (by decide), h.2.2.2.2.2.2.2⟩

/-! ### `fmdcmp` — the modification-time comparator (cbs.h lines 509-522)

    int
    fmdcmp(const char *lhs, const char *rhs)
    {
        ...
        return sbl.st_mtim.tv_sec == sbr.st_mtim.tv_sec
                 ? sbl.st_mtim.tv_nsec - sbr.st_mtim.tv_nsec
                 : sbl.st_mtim.tv_sec - sbr.st_mtim.tv_sec;
    }

`st_mtim.tv_sec` has type `time_t`, which is a 64-bit signed integer on
every modern POSIX platform, while the function returns `int` (32-bit).
The value of the conditional expression is therefore converted from 64 bits
to 32 bits on return; on the usual implementations this conversion reduces
the value modulo `2 ^ 32` into `[-2 ^ 31, 2 ^ 31)`.  `tv_nsec` lies in
`[0, 10 ^ 9)`, so the nanosecond difference is unaffected; the second
difference is not. -/

/-- Two's-complement wrap of an integer into the 32-bit `int` range,
modelling the C conversion of the 64-bit difference to the `int` return
type. -/
def wrap32 (z : Int) : Int := (z + 2 ^ 31) % 2 ^ 32 - 2 ^ 31

/-- A file modification timestamp as `stat` reports it: seconds and
nanoseconds (`tv_nsec` is in `[0, 10 ^ 9)` for real timestamps). -/
structure Mtime where
  sec : Int
  nsec : Int
deriving DecidableEq, Repr

/-- Faithful model of `fmdcmp` on the two files' modification timestamps
(both `stat` calls assumed to succeed; on failure the function dies). -/
def fmdcmp (l r : Mtime) : Int :=
  wrap32 (if l.sec = r.sec then l.nsec - r.nsec else l.sec - r.sec)

/-- Model of `fmdnewer` (cbs.h lines 524-528): `fmdcmp(lhs, rhs) > 0`. -/
def fmdnewer (l r : Mtime) : Bool := decide (0 < fmdcmp l r)

/-- Model of `fmdolder` (cbs.h lines 530-534): `fmdcmp(lhs, rhs) < 0`. -/
def fmdolder (l r : Mtime) : Bool := decide (fmdcmp l r < 0)

/-- Spec-side notion: the left timestamp is strictly newer than the right
one (seconds first, then nanoseconds). -/
def mtimeNewer (l r : Mtime) : Prop :=
  r.sec < l.sec ∨ (l.sec = r.sec ∧ r.nsec < l.nsec)

instance (l r : Mtime) : Decidable (mtimeNewer l r) := by
  unfold mtimeNewer; infer_instance

/-- C2 (code bug): with the left file's mtime at `2 ^ 31` seconds
(January 2038) and the right file's at the epoch, the left-hand side is
strictly newer, yet `fmdcmp` returns `-2 ^ 31` — a negative value — because
the 64-bit `time_t` difference `2 ^ 31` is truncated to the 32-bit `int`
return type.  This contradicts the function's own documentation ("A return
value >0 means the LHS is newer than the RHS"), and the sign antisymmetry
`sign(fmdcmp(a, b)) == -sign(fmdcmp(b, a))` fails there as well, since both
orders of the comparison wrap to the same negative value. -/
theorem fmdcmp_truncates_time_t :
    mtimeNewer ⟨2 ^ 31, 0⟩ ⟨0, 0⟩
    ∧ fmdcmp ⟨2 ^ 31, 0⟩ ⟨0, 0⟩ = -(2 ^ 31)
    ∧ ¬(0 < fmdcmp ⟨2 ^ 31, 0⟩ ⟨0, 0⟩)
    ∧ fmdnewer ⟨2 ^ 31, 0⟩ ⟨0, 0⟩ = false
    ∧ (fmdcmp ⟨2 ^ 31, 0⟩ ⟨0, 0⟩).sign ≠ -(fmdcmp ⟨0, 0⟩ ⟨2 ^ 31, 0⟩).sign := by
  refine ⟨by decide, by decide, by decide, by decide, by decide⟩

/-! ### `_rebuild` — the self-rebuild bootstrapper (cbs.h lines 536-557)

    void
    _rebuild(char *src)
    {
        cmd_t cmd = {0};
        if (fmdnewer(*_cbs_argv, src) && fmdnewer(*_cbs_argv, __FILE__))
            return;
        cmdadd(&cmd, "cc");
        cmdadd(&cmd, "-o", *_cbs_argv, src);
        cmdput(cmd);
        if (cmdexec(cmd))
            diex("Compilation of build script failed");
        cmdclr(&cmd);
        cmdaddv(&cmd, _cbs_argv, _cbs_argc);
        execvp(*cmd._argv, cmd._argv);
        die("execvp: %s", *cmd._argv);
    }

The function is modelled on the modification timestamps of the three files
involved plus the exit code the compiler command produces. -/

/-- The file-system and compiler facts `_rebuild` consults: the modification
timestamps of the running executable (`*_cbs_argv`), of the build-script
source (`src`), and of this header (`__FILE__`), plus the exit status the
`cc` command would return. -/
structure RebuildEnv where
  exe : Mtime
  src : Mtime
  hdr : Mtime
  ccExit : Nat
deriving DecidableEq, Repr

/-- Observable actions `_rebuild` can perform, in order. -/
inductive RebuildAct where
  | compileInvoked
  | reexeced
deriving DecidableEq, Repr

/-- How an invocation of `_rebuild` ends. -/
inductive RebuildOutcome where
  /-- The early `return`: control goes back to the caller. -/
  | fresh
  /-- `diex("Compilation of build script failed")`: the process terminates
  with a diagnostic and does not re-execute. -/
  | compileFailDiag
  /-- `execvp` on the freshly built script: the process image is replaced
  and `_rebuild` never returns. -/
  | reexec
deriving DecidableEq, Repr

/-- Faithful model of `_rebuild`'s control flow, paired with the list of
actions performed. -/
def _rebuild (env : RebuildEnv) : RebuildOutcome × List RebuildAct :=
  if fmdnewer env.exe env.src && fmdnewer env.exe env.hdr then (.fresh, [])
  else if env.ccExit ≠ 0 then (.compileFailDiag, [.compileInvoked])
  else (.reexec, [.compileInvoked, .reexeced])

/-- C1 as stated is false on the code: an executable whose mtime is
`2 ^ 31` seconds (about 68 years) newer than both its source and the
header is strictly newer than both, yet the bootstrapper does not take the
no-op branch — it invokes the compiler and re-executes — because
`fmdnewer` truncates the 64-bit seconds difference to a 32-bit `int`
(see `fmdcmp_truncates_time_t`). -/
theorem rebuild_fresh_claim_counterexample :
    mtimeNewer ⟨2 ^ 31, 0⟩ ⟨0, 0⟩
    ∧ _rebuild ⟨⟨2 ^ 31, 0⟩, ⟨0, 0⟩, ⟨0, 0⟩, 0⟩ ≠ (.fresh, [])
    ∧ RebuildAct.compileInvoked ∈ (_rebuild ⟨⟨2 ^ 31, 0⟩, ⟨0, 0⟩, ⟨0, 0⟩, 0⟩).2 := by
  refine ⟨by decide, by decide, by decide⟩

/-- C1 (amended): the staleness test is evaluated by the comparator, i.e.
by `fmdnewer`.  When the comparator reports the executable strictly newer
than both the build-script source and the header — which coincides with
being strictly newer whenever the seconds differences fit in a 32-bit
`int` — the bootstrapper returns to its caller having performed no action
at all (so repeated invocations are no-ops as well, nothing having
changed); otherwise it invokes the compiler, and on a nonzero compiler
exit it terminates with a diagnostic without re-executing, while on a
zero compiler exit it replaces the process image. -/
theorem rebuild_state_machine (env : RebuildEnv) :
    (fmdnewer env.exe env.src = true → fmdnewer env.exe env.hdr = true →
      _rebuild env = (.fresh, []))
    ∧ (¬(fmdnewer env.exe env.src = true ∧ fmdnewer env.exe env.hdr = true) →
        RebuildAct.compileInvoked ∈ (_rebuild env).2
        ∧ (env.ccExit ≠ 0 → _rebuild env = (.compileFailDiag, [.compileInvoked]))
        ∧ (env.ccExit = 0 → _rebuild env = (.reexec, [.compileInvoked, .reexeced]))) := by
  constructor
  · intro hs hh
    rw [_rebuild, hs, hh]
    rfl
  · intro hns
    have hcond : (fmdnewer env.exe env.src && fmdnewer env.exe env.hdr) = false := by
      cases hsrc : fmdnewer env.exe env.src <;>
        cases hhdr : fmdnewer env.exe env.hdr <;> simp_all
    rw [_rebuild, hcond]
    by_cases hcc : env.ccExit ≠ 0
    · simp [hcc]
    · simp [hcc]

/-- Witness for the amended C1: an executable one second newer than both
inputs is reported newer by the comparator and the bootstrapper is a no-op;
with the comparator reporting stale and the compiler failing, the
bootstrapper ends with the diagnostic and never re-executes. -/
theorem rebuild_state_machine_witness :
    _rebuild ⟨⟨1, 0⟩, ⟨0, 0⟩, ⟨0, 0⟩, 0⟩ = (.fresh, [])
    ∧ _rebuild ⟨⟨0, 0⟩, ⟨1, 0⟩, ⟨0, 0⟩, 1⟩ = (.compileFailDiag, [.compileInvoked]) :=
  ⟨(rebuild_state_machine ⟨⟨1, 0⟩, ⟨0, 0⟩, ⟨0, 0⟩, 0⟩).1 (by decide) (by decide),
   ((rebuild_state_machine ⟨⟨0, 0⟩, ⟨1, 0⟩, ⟨0, 0⟩, 1⟩).2 (by decide)).2.1 (by decide)⟩

/-! ### `cmdwait` — status normalization (cbs.h lines 437-451)

    int
    cmdwait(pid_t pid)
    {
        for (;;) {
            int ws;
            if (waitpid(pid, &ws, 0) == -1)
                die("waitpid");
            if (WIFEXITED(ws))
                return WEXITSTATUS(ws);
            if (WIFSIGNALED(ws))
                return 256;
        }
    }

A run of `cmdwait` is driven by the sequence of results the successive
`waitpid` calls produce; each is either a failure with an `errno` value
(`waitpid` returned -1) or a raw wait-status word.  The status macros are
the standard POSIX/glibc encodings:

    WIFEXITED(ws)    == ((ws & 0x7f) == 0)
    WEXITSTATUS(ws)  == ((ws >> 8) & 0xff)
    WIFSIGNALED(ws)  == (((signed char) (((ws & 0x7f) + 1) >> 1)) > 0),

the last being equivalent to `1 <= (ws & 0x7f) <= 126`. -/

/-- The result of one `waitpid` call. -/
inductive WaitEv where
  /-- `waitpid` returned -1 with this `errno` (4 is `EINTR`). -/
  | err (errno : Nat)
  /-- `waitpid` succeeded and stored this raw status word. -/
  | ok (ws : Nat)
deriving DecidableEq, Repr

/-- How a `cmdwait` run ends. -/
inductive WaitOutcome where
  /-- The function returned this value. -/
  | ret (code : Nat)
  /-- `die("waitpid")`: the whole program terminates. -/
  | die
  /-- The event sequence ran out while the loop was still going (models a
  run that is still blocked in `waitpid`). -/
  | blocked
deriving DecidableEq, Repr

/-- Model of `WIFEXITED`. -/
def WIFEXITED (ws : Nat) : Bool := ws % 128 = 0

/-- Model of `WEXITSTATUS`. -/
def WEXITSTATUS (ws : Nat) : Nat := ws / 256 % 256

/-- Model of `WIFSIGNALED` (true exactly for `1 <= (ws & 0x7f) <= 126`). -/
def WIFSIGNALED (ws : Nat) : Bool := ws % 128 ≠ 0 && ws % 128 ≠ 127

/-- Faithful model of `cmdwait`, consuming the successive `waitpid`
results. -/
def cmdwait : List WaitEv → WaitOutcome
  | [] => .blocked
  | .err _ :: _ => .die
  | .ok ws :: rest =>
    if WIFEXITED ws then .ret (WEXITSTATUS ws)
    else if WIFSIGNALED ws then .ret 256
    else cmdwait rest

/-- Model of `cmdexec` (cbs.h lines 361-365): it launches the command via
`cmdexeca` (fork + execvp, contributing no status handling of its own) and
returns exactly `cmdwait` of the resulting process. -/
def cmdexec (events : List WaitEv) : WaitOutcome := cmdwait events

/-- C3: when the child terminated normally, `cmdwait` returns its exit code,
a value in 0-255; when the child was terminated by a signal, `cmdwait`
returns exactly 256, which no normal exit (255 included) can produce; and
`cmdexec` — launch composed with wait — returns the same normalized
status. -/
theorem cmdwait_normalizes (ws : Nat) (rest : List WaitEv) :
    (WIFEXITED ws = true →
      cmdwait (.ok ws :: rest) = .ret (WEXITSTATUS ws) ∧ WEXITSTATUS ws < 256
      ∧ WEXITSTATUS ws ≠ 256)
    ∧ (WIFSIGNALED ws = true → cmdwait (.ok ws :: rest) = .ret 256)
    ∧ cmdexec (.ok ws :: rest) = cmdwait (.ok ws :: rest) := by
  refine ⟨fun hex => ⟨?_, ?_, ?_⟩, fun hsig => ?_, rfl⟩
  · rw [cmdwait, hex]; rfl
  · exact Nat.mod_lt _ (by norm_num)
  · exact Nat.ne_of_lt (Nat.mod_lt _ (by norm_num))
  · have hex : WIFEXITED ws = false := by
      rw [WIFSIGNALED] at hsig
      rw [WIFEXITED]
      simp only [Bool.and_eq_true, decide_eq_true_eq, ne_eq] at hsig ⊢
      simpa using hsig.1
    rw [cmdwait, hex, hsig]
    rfl

/-- Witness for C3: a child exiting with code 7 (raw status `7 * 256`)
yields 7; a child killed by signal 9 (raw status 9) yields 256. -/
theorem cmdwait_normalizes_witness :
    cmdwait [.ok (7 * 256)] = .ret 7 ∧ cmdwait [.ok 9] = .ret 256 :=
  ⟨by have h := (cmdwait_normalizes (7 * 256) []).1 (by decide)
      simpa using h.1,
   (cmdwait_normalizes 9 []).2.1 (by decide)⟩

/-- C7 as stated is false on the code: when the first `waitpid` call fails
with `EINTR` (errno 4) before the child terminates, `cmdwait` does not
retry — the `waitpid(...) == -1` branch calls `die("waitpid")` regardless
of the errno value, terminating the program instead of returning the
child's status (here exit code 7, raw status `7 * 256`). -/
theorem cmdwait_eintr_counterexample :
    cmdwait [.err 4, .ok (7 * 256)] = .die
    ∧ cmdwait [.err 4, .ok (7 * 256)] ≠ .ret 7
    ∧ cmdwait [.ok (7 * 256)] = .ret 7 := by
  refine ⟨by decide, by decide, by decide⟩

/-- C7 (amended): any `waitpid` failure — an interruption included — makes
`cmdwait` terminate the program with a diagnostic; the internal retry loop
only covers the case where `waitpid` succeeds but reports a status that is
neither a normal exit nor a termination by signal, and in that case the
wait is re-issued and the eventual status is still normalized and
returned. -/
theorem cmdwait_err_fatal (e ws : Nat) (rest : List WaitEv)
    (hnex : WIFEXITED ws = false) (hnsig : WIFSIGNALED ws = false) :
    cmdwait (.err e :: rest) = .die
    ∧ cmdwait (.ok ws :: rest) = cmdwait rest := by
  refine ⟨rfl, ?_⟩
  rw [cmdwait, hnex, hnsig]
  rfl

/-- Witness for the amended C7: a stop report (raw status 127, `WUNTRACED`
style) is neither an exit nor a signal termination, so the loop re-issues
the wait; an `EINTR` failure dies. -/
theorem cmdwait_err_fatal_witness :
    cmdwait [.err 4, .ok (7 * 256)] = .die
    ∧ cmdwait [.ok 127, .ok (7 * 256)] = cmdwait [.ok (7 * 256)] :=
  cmdwait_err_fatal 4 127 [.ok (7 * 256)] (by decide) (by decide)

/-! ### `cmdexecb` — captured output (cbs.h lines 383-435)

The parent-side read loop, after the fork and the close of the write end:

    buf = NULL;
    len = 0;
    for (;;) {
        char tmp[blksize];
        ssize_t nr;
        if ((nr = read(fds[FD_R], tmp, blksize)) == -1)
            die("read");
        if (!nr)
            break;
        buf = bufalloc(buf, len + nr + 1, sizeof(char));
        memcpy(buf + len, tmp, nr);
        len += nr;
    }
    close(fds[FD_R]);
    buf[len] = 0;

The loop is driven by the successive successful `read` results: each is a
nonempty byte chunk, and the loop exits at the first zero-length read
(end of stream — on a pipe, `read` returns 0 only at end of stream).
`bufalloc` is `realloc`, so the buffer is `NULL` until the first nonempty
chunk arrives. -/

/-- The parent's buffer after the `cmdexecb` read loop has consumed the
given chunks: `none` models the `NULL` pointer. -/
def cmdexecbBuf (chunks : List (List Nat)) : Option (List Nat) :=
  chunks.foldl (fun buf c => some (buf.getD [] ++ c)) none

/-- The terminating store `buf[len] = 0`. -/
inductive StoreResult where
  /-- `buf` was still `NULL`: the store dereferences a null pointer. -/
  | nullDeref
  /-- The buffer, with the terminating NUL byte appended. -/
  | ok (bytes : List Nat)
deriving DecidableEq, Repr

/-- Model of `buf[len] = 0` after the read loop. -/
def cmdexecbFinish (buf : Option (List Nat)) : StoreResult :=
  match buf with
  | none => .nullDeref
  | some b => .ok (b ++ [0])

lemma cmdexecbBuf_go (chunks : List (List Nat)) (acc : List Nat) :
    chunks.foldl (fun buf c => some (buf.getD [] ++ c)) (some acc)
      = some (acc ++ chunks.flatten) := by
  induction chunks generalizing acc with
  | nil => simp
  | cons c rest ih => simp [ih, List.append_assoc]

/-- C10: the capture buffer of `cmdexecb` is allocated only inside the read
loop, so when the child writes zero bytes to its standard output (the
chunk list is empty — every successful pre-end-of-stream read on a pipe
returns at least one byte) the buffer pointer is still `NULL` when
`buf[len] = 0` executes, a null-pointer write; with at least one byte of
output the caller receives an allocated buffer holding exactly the child's
output, NUL-terminated. -/
theorem cmdexecb_null_buffer (chunks : List (List Nat))
    (hne : ∀ c ∈ chunks, c ≠ []) :
    (chunks = [] →
      cmdexecbBuf chunks = none
      ∧ cmdexecbFinish (cmdexecbBuf chunks) = .nullDeref)
    ∧ (chunks ≠ [] →
      cmdexecbBuf chunks = some chunks.flatten
      ∧ cmdexecbFinish (cmdexecbBuf chunks) = .ok (chunks.flatten ++ [0])) := by
  constructor
  · rintro rfl
    exact ⟨rfl, rfl⟩
  · intro hcne
    cases chunks with
    | nil => exact absurd rfl hcne
    | cons c rest =>
      have hbuf : cmdexecbBuf (c :: rest) = some ((c :: rest).flatten) := by
        rw [cmdexecbBuf, List.foldl_cons]
        simpa using cmdexecbBuf_go rest c
      exact ⟨hbuf, by rw [hbuf]; rfl⟩

/-- Witness for C10 at both a zero-output child and a child writing
"hello" followed by a newline (bytes 104 101 108 108 111 10). -/
theorem cmdexecb_null_buffer_witness :
    cmdexecbFinish (cmdexecbBuf []) = .nullDeref
    ∧ cmdexecbFinish (cmdexecbBuf [[104, 101], [108, 108, 111, 10]])
        = .ok [104, 101, 108, 108, 111, 10, 0] :=
  ⟨((cmdexecb_null_buffer [] (by decide)).1 rfl).2,
   by have h := ((cmdexecb_null_buffer [[104, 101], [108, 108, 111, 10]]
        (by decide)).2 (by decide)).2
      simpa using h⟩

/-! ### `pcquery` — pkg-config lookup (cbs.h lines 570-602)

    if ((ec = cmdexecb(c, &p, &n))) {
        if (errno == ENOENT) {
            free(c._argv);
            return false;
        }
        diex("pkg-config terminated with exit-code %d", ec);
    }
    ... tokenize p, strdup each token, cmdadd it ...
    return true;

The call into `cmdexecb` comes first, so `pcquery` inherits the whole
behavior of the read loop and the terminating `buf[len] = 0` store modelled
above — `cmdexecbFinish (cmdexecbBuf chunks)` — before `cmdwait` runs and
before the `ec`/`errno` tests are reached.  Three facts of the source shape
the model:

* When the pkg-config binary is absent, the child's `execvp` fails before
  anything is written to the standard-output pipe (the child's `die`
  diagnostic goes to the inherited stderr, not the pipe), and the child
  exits with `EXIT_FAILURE` (1).  The parent therefore drains zero bytes:
  its chunk list is empty, `buf` is still `NULL` at `buf[len] = 0`, and
  the parent crashes on that null-pointer store inside `cmdexecb` —
  `cmdwait`, the `errno == ENOENT` test and `diex` are never reached.
* The same null store fires for a present pkg-config that exits nonzero
  writing nothing to standard output (its error messages go to stderr).
* On the one path where the `errno` test does execute — a child that wrote
  at least one byte to standard output and exited nonzero — the `errno`
  the parent inspects is the parent's own entry value: none of the
  successful parent-side calls inside `cmdexecb` set it, and the child's
  `ENOENT` from `execvp` exists only in the child's copy of `errno` and
  cannot reach the parent. -/

/-- POSIX `ENOENT`. -/
def ENOENT : Nat := 2

/-- The facts `pcquery` consults: whether the pkg-config binary exists,
the chunks the child writes to the standard-output pipe when it does run
(an absent binary writes nothing — the model enforces this), the exit code
pkg-config itself returns when it runs, the whitespace-split tokens of the
captured output, and the value of the parent's `errno` on entry. -/
structure PCEnv where
  present : Bool
  chunks : List (List Nat)
  pcExit : Nat
  tokens : List String
  errno0 : Nat
deriving DecidableEq, Repr

/-- How a `pcquery` call ends. -/
inductive PCOutcome where
  /-- The function returned this boolean, having appended these strings to
  the caller's command. -/
  | ret (ok : Bool) (appended : List String)
  /-- The call reached `diex("pkg-config terminated with exit-code %d")`:
  the whole program terminates with that diagnostic. -/
  | dieDiag
  /-- The parent crashed on the `buf[len] = 0` null-pointer store inside
  `cmdexecb`, before `cmdwait` and before any of `pcquery`'s own tests. -/
  | crashNullDeref
deriving DecidableEq, Repr

/-- Faithful model of `pcquery`: first the `cmdexecb` read loop and its
terminating store run on the bytes the child actually wrote to the pipe
(none when the binary is absent, since `execvp` fails before any output);
only if that store had a buffer to write to does `cmdwait` produce the
exit code (1 for the `execvp`-failed child, whose `die` exits with
`EXIT_FAILURE`) and do the `ec`/`errno` tests of cbs.h lines 587-592
execute, with `errno` still holding the parent's entry value. -/
def pcquery (env : PCEnv) : PCOutcome :=
  let chunks := if env.present then env.chunks else []
  match cmdexecbFinish (cmdexecbBuf chunks) with
  | .nullDeref => .crashNullDeref
  | .ok _ =>
    let ec := if env.present then env.pcExit else 1
    if ec ≠ 0 then
      if env.errno0 = ENOENT then .ret false []
      else .dieDiag
    else .ret true env.tokens

/-- C6 (code bug): `pcquery` never returns false for an absent pkg-config.
With the binary absent the child writes nothing to the pipe, so the parent
executes `buf[len] = 0` through the still-`NULL` buffer inside `cmdexecb`
and crashes before any of `pcquery`'s own tests — whatever the parent's
`errno` holds, `ENOENT` included — where the claim and the function's own
documentation ("returns ... false if pkg-config is not found on the
system") promise a recoverable `false` return.  A present pkg-config that
fails writing nothing to standard output (failure messages go to stderr)
crashes at the same store rather than producing the promised diagnostic;
and on the sole surviving failure path — a child that wrote output and
exited nonzero — the `errno == ENOENT` test reads the parent's stale entry
value, so a stale `ENOENT` turns that failure into the "not installed"
`false` return.  Absence is never detected: the test that is supposed to
detect it is unreachable exactly when the binary is absent. -/
theorem pcquery_absence_never_detected :
    pcquery ⟨false, [], 0, [], 0⟩ = .crashNullDeref
    ∧ pcquery ⟨false, [], 0, [], ENOENT⟩ = .crashNullDeref
    ∧ pcquery ⟨false, [], 0, [], 0⟩ ≠ .ret false []
    ∧ pcquery ⟨false, [], 0, [], ENOENT⟩ ≠ .ret false []
    ∧ pcquery ⟨true, [], 1, [], 0⟩ = .crashNullDeref
    ∧ pcquery ⟨true, [[65]], 1, [], 0⟩ = .dieDiag
    ∧ pcquery ⟨true, [[65]], 1, [], ENOENT⟩ = .ret false [] := by
  refine ⟨by decide, by decide, by decide, by decide, by decide, by decide, by decide⟩

/-! ### The thread pool: `_tpwork` and `tpfree` (cbs.h lines 606-676)

The teardown scenario is modelled as an explicit interleaving of two
threads — one worker running `_tpwork` and the main thread running
`tpfree` — over a shared pool state.  Mutex-protected regions are split at
the statement level; crucially, `tpfree` performs

    tp->_stop = true;              // line 657, BEFORE taking the mutex
    pthread_mutex_lock(&tp->_mtx); // line 659
    pthread_cond_broadcast(&tp->_cnd);
    pthread_mutex_unlock(&tp->_mtx);

so the store to `_stop` is not serialized by the mutex and can take effect
between any two statements of a worker's critical section — in particular
between the worker's `if (tp->_stop)` test (line 617) and its
`j = _tpdeq(tp)` (line 622).  Jobs are identified by numbers; `executed`
records the jobs whose `fn` has run and `freed` those whose destructor has
run. -/

/-- The two threads of the teardown scenario. -/
inductive Tid where
  | worker
  | main
deriving DecidableEq, Repr

/-- Program counter of the worker thread inside `_tpwork`
(cbs.h lines 606-637). -/
inductive WPC where
  /-- At the outer `while (!tp->_stop)` test (line 611). -/
  | outerCheck
  /-- At `pthread_mutex_lock` (line 614). -/
  | lock1
  /-- Holding the mutex, at `while (!tp->_stop && !tp->_head)` (line 615). -/
  | waitLoop
  /-- Blocked in `pthread_cond_wait` (line 616), mutex released. -/
  | waiting
  /-- Holding the mutex, at `if (tp->_stop)` (line 617). -/
  | stopCheck
  /-- Holding the mutex, at `j = _tpdeq(tp)` (line 622). -/
  | deq
  /-- At `pthread_mutex_unlock` (line 623). -/
  | unlock1
  /-- At `j->fn(j->arg)` (line 625). -/
  | runJob
  /-- At `j->free(j->arg); free(j)` (lines 626-628). -/
  | freeJob
  /-- At `pthread_mutex_lock` (line 630). -/
  | lock2
  /-- Holding the mutex, at `tp->_left--; pthread_cond_broadcast`
  (lines 631-632). -/
  | dec
  /-- At `pthread_mutex_unlock` (line 633). -/
  | unlock2
  /-- The worker has left the loop and its thread has finished. -/
  | wdone
deriving DecidableEq, Repr

/-- Program counter of the main thread inside `tpfree`
(cbs.h lines 654-676). -/
inductive MPC where
  /-- At `tp->_stop = true` (line 657), the first statement of `tpfree`. -/
  | setStop
  /-- At `pthread_mutex_lock` (line 659). -/
  | lockB
  /-- Holding the mutex, at `pthread_cond_broadcast` (line 660). -/
  | bcast
  /-- At `pthread_mutex_unlock` (line 661). -/
  | unlockB
  /-- At `pthread_join` (lines 663-664). -/
  | join
  /-- At the drain loop `while (tp->_head)` (lines 667-672). -/
  | drain
  /-- `tpfree` has returned. -/
  | mdone
deriving DecidableEq, Repr

/-- The shared pool state plus both threads' program counters.
`qAtTeardown` records a snapshot of the job queue taken at the moment
teardown begins (the `tp->_stop = true` store). -/
structure TPState where
  stop : Bool
  queue : List Nat
  mtx : Option Tid
  wpc : WPC
  mpc : MPC
  current : Option Nat
  executed : List Nat
  freed : List Nat
  left : Nat
  qAtTeardown : Option (List Nat)
deriving DecidableEq, Repr

/-- One step of the worker thread (no-op when it is blocked on the mutex
or already finished).  Wakeups from `pthread_cond_wait` reacquire the
mutex and re-test the loop condition; POSIX allows spurious wakeups, so
the model lets a waiting worker wake whenever the mutex is free. -/
def wstep (s : TPState) : TPState :=
  match s.wpc with
  | .outerCheck =>
    if s.stop then { s with wpc := .wdone } else { s with wpc := .lock1 }
  | .lock1 =>
    if s.mtx = none then { s with mtx := some .worker, wpc := .waitLoop } else s
  | .waitLoop =>
    if !s.stop && s.queue.isEmpty
    then { s with mtx := none, wpc := .waiting }
    else { s with wpc := .stopCheck }
  | .waiting =>
    if s.mtx = none then { s with mtx := some .worker, wpc := .waitLoop } else s
  | .stopCheck =>
    if s.stop then { s with mtx := none, wpc := .wdone } else { s with wpc := .deq }
  | .deq =>
    match s.queue with
    | [] => s
    | j :: rest => { s with queue := rest, current := some j, wpc := .unlock1 }
  | .unlock1 => { s with mtx := none, wpc := .runJob }
  | .runJob =>
    match s.current with
    | none => s
    | some j => { s with executed := s.executed ++ [j], wpc := .freeJob }
  | .freeJob =>
    match s.current with
    | none => s
    | some j => { s with freed := s.freed ++ [j], current := none, wpc := .lock2 }
  | .lock2 =>
    if s.mtx = none then { s with mtx := some .worker, wpc := .dec } else s
  | .dec => { s with left := s.left - 1, wpc := .unlock2 }
  | .unlock2 => { s with mtx := none, wpc := .outerCheck }
  | .wdone => s

/-- One step of the main thread inside `tpfree` (no-op when blocked on the
mutex or on the join, or already finished). -/
def mstep (s : TPState) : TPState :=
  match s.mpc with
  | .setStop => { s with stop := true, qAtTeardown := some s.queue, mpc := .lockB }
  | .lockB =>
    if s.mtx = none then { s with mtx := some .main, mpc := .bcast } else s
  | .bcast => { s with mpc := .unlockB }
  | .unlockB => { s with mtx := none, mpc := .join }
  | .join => if s.wpc = .wdone then { s with mpc := .drain } else s
  | .drain =>
    match s.queue with
    | [] => { s with mpc := .mdone }
    | j :: rest => { s with queue := rest, freed := s.freed ++ [j] }
  | .mdone => s

/-- One interleaving step: the scheduled thread moves. -/
def step (s : TPState) : Tid → TPState
  | .worker => wstep s
  | .main => mstep s

/-- Run the machine under a schedule. -/
def tpRun (s : TPState) (sched : List Tid) : TPState := sched.foldl step s

/-- The pool state right after `tpinit(&tp, 1)` and one `tpenq` of job 1
(`_left == 1`, queue holds job 1), with the worker about to test the outer
loop condition and the caller about to execute the first statement of
`tpfree`. -/
def tpStart : TPState :=
  { stop := false, queue := [1], mtx := none, wpc := .outerCheck,
    mpc := .setStop, current := none, executed := [], freed := [],
    left := 1, qAtTeardown := none }

/-- The interleaving that executes a job still queued when teardown began:
the worker passes its `if (tp->_stop)` test while holding the mutex, the
main thread then performs the unguarded `tp->_stop = true` store, and the
worker goes on to dequeue and run the job. -/
def tpBadSched : List Tid :=
  [.worker, .worker, .worker, .worker, .main, .worker, .worker, .main,
   .worker, .worker, .main, .main, .worker, .worker, .worker, .worker,
   .main, .main]

/-- C5 as stated is false on the code: under schedule `tpBadSched` from
`tpStart`, job 1 is still in the queue at the moment `tpfree` begins
(`qAtTeardown = some [1]`), yet its work function runs (`executed = [1]`)
and `tpfree` runs to completion.  The store `tp->_stop = true` is made
before `tpfree` takes the mutex, so it does not synchronize with the
worker's mutex-protected `if (tp->_stop)` test, and a worker already past
that test dequeues and executes one more job. -/
theorem tpfree_race_executes_queued_job :
    (tpRun tpStart tpBadSched).qAtTeardown = some [1]
    ∧ (tpRun tpStart tpBadSched).executed = [1]
    ∧ (tpRun tpStart tpBadSched).freed = [1]
    ∧ (tpRun tpStart tpBadSched).mpc = .mdone := by
  refine ⟨by decide, by decide, by decide, by decide⟩

lemma tpRun_drain_go (sched : List Tid) (s : TPState)
    (hw : s.wpc = .wdone)
    (hm : s.mpc = .drain ∨ (s.mpc = .mdone ∧ s.queue = [])) :
    (tpRun s sched).executed = s.executed
    ∧ (tpRun s sched).freed ++ (tpRun s sched).queue = s.freed ++ s.queue
    ∧ ((tpRun s sched).mpc = .mdone → (tpRun s sched).queue = [])
    ∧ ((tpRun s sched).mpc = .drain ∨ (tpRun s sched).mpc = .mdone) := by
  induction sched generalizing s with
  | nil =>
    refine ⟨rfl, rfl, fun hdone => ?_, ?_⟩
    · rcases hm with hm | hm
      · rw [tpRun, List.foldl_nil] at hdone
        rw [hm] at hdone
        cases hdone
      · exact hm.2
    · rcases hm with hm | hm
      · exact Or.inl hm
      · exact Or.inr hm.1
  | cons t rest ih =>
    have hrun : tpRun s (t :: rest) = tpRun (step s t) rest := by
      rw [tpRun, List.foldl_cons]; rfl
    cases t with
    | worker =>
      have hstep : step s .worker = s := by
        show wstep s = s
        rw [wstep, hw]
      rw [hrun, hstep]
      exact ih s hw hm
    | main =>
      rcases hm with hm | hm
      · cases hq : s.queue with
        | nil =>
          have hstep : step s .main = { s with mpc := .mdone } := by
            show mstep s = _
            rw [mstep, hm, hq]
          rw [hrun, hstep]
          have hrec := ih { s with mpc := .mdone } hw (Or.inr ⟨rfl, hq⟩)
          refine ⟨hrec.1, ?_, hrec.2.2.1, hrec.2.2.2⟩
          rw [hrec.2.1]
          simp [hq]
        | cons j tl =>
          have hstep : step s .main
              = { s with queue := tl, freed := s.freed ++ [j] } := by
            show mstep s = _
            rw [mstep, hm, hq]
          rw [hrun, hstep]
          have hrec := ih { s with queue := tl, freed := s.freed ++ [j] } hw
            (Or.inl hm)
          refine ⟨hrec.1, ?_, hrec.2.2.1, hrec.2.2.2⟩
          rw [hrec.2.1]
          simp [hq]
      · have hstep : step s .main = s := by
          show mstep s = s
          rw [mstep, hm.1]
        rw [hrun, hstep]
        exact ih s hw (Or.inr hm)

/-- C5 (amended): every job still in the queue when the drain phase of
`tpfree` runs — after all workers have been joined — has its destructor
invoked exactly once and its work function invoked zero times, and when
`tpfree` completes the queue is empty.  (The unamended claim, dating the
guarantee from the very start of teardown, fails by
the race exhibited in the counterexample: the stop flag is stored outside
the mutex, so one already-running worker critical section may still
dequeue and execute a queued job.) -/
theorem tpfree_drain_frees_not_runs (s : TPState) (sched : List Tid)
    (hw : s.wpc = .wdone) (hm : s.mpc = .drain) :
    (tpRun s sched).executed = s.executed
    ∧ ((tpRun s sched).mpc = .mdone →
        (tpRun s sched).queue = []
        ∧ (tpRun s sched).freed = s.freed ++ s.queue) := by
  obtain ⟨he, hfq, hq, -⟩ := tpRun_drain_go sched s hw (Or.inl hm)
  refine ⟨he, fun hdone => ?_⟩
  have hq2 := hq hdone
  rw [hq2, List.append_nil] at hfq
  exact ⟨hq2, hfq⟩

/-- A post-join state for the C5 witness: both workers joined, jobs 5 and 6
still queued, the main thread at the drain loop. -/
def tpDrainState : TPState :=
  { stop := true, queue := [5, 6], mtx := none, wpc := .wdone, mpc := .drain,
    current := none, executed := [], freed := [], left := 2,
    qAtTeardown := some [5, 6] }

/-- Witness for the amended C5: draining two leftover jobs frees both,
executes neither, and empties the queue. -/
theorem tpfree_drain_frees_not_runs_witness :
    (tpRun tpDrainState [.main, .main, .main]).executed = []
    ∧ (tpRun tpDrainState [.main, .main, .main]).queue = []
    ∧ (tpRun tpDrainState [.main, .main, .main]).freed = [5, 6] :=
  have h := tpfree_drain_frees_not_runs tpDrainState [.main, .main, .main] rfl rfl
  ⟨h.1, (h.2 (by decide)).1, by
    have h2 := (h.2 (by decide)).2
    simpa using h2⟩

end Cbs
